import Mathlib

/-!
# Verification of the Zillow FSBO scraper (`zillow_scrape.py`)

A shallow embedding of the scraping core of `ZillowFSBOScraper`:

* the per-card field extraction of `parse_listings_page` (including the
  three regular-expression searches over the details blob),
* the card-selection fallback (`ul.photo-cards > li` vs
  `div[data-test='property-card']`),
* the FSBO classification (`fsbo_badge or for_sale_by_owner_text`),
* the pagination loop of `search_fsbo_listings` with its
  `try/except/finally` structure,
* `close_browser` and `random_delay`.

Text is modelled as `List Char`.  The environment (pages served by the
browser, availability of a next-page control, points at which an
unrecoverable exception is raised) is an explicit parameter.
-/

namespace ZillowScrape

/-- A character counts as a digit for the `\d` class of the Python regexes. -/
def isDigitChar (c : Char) : Bool := c.isDigit

/-- A character counts as whitespace for the `\s` class of the Python regexes. -/
def isSpaceChar (c : Char) : Bool := c = ' ' || c = '\t' || c = '\n' || c = '\r'

/-- A character of the `[\d,]` class of the square-footage regex. -/
def isDigitOrComma (c : Char) : Bool := c.isDigit || c = ','

/-- Attempt to match the regex `(\d+)\s*bd` anchored at the start of `l`
(the character classes `\d`, `\s` and the literal `b` are pairwise disjoint,
so the greedy maximal-run semantics of the Python engine is exact here).
Returns the captured group 1 on success. -/
def matchBdAt (l : List Char) : Option (List Char) :=
  let ds := l.takeWhile isDigitChar
  let rest := l.dropWhile isDigitChar
  if ds.isEmpty then none
  else if List.isPrefixOf [ 'b', 'd' ] (rest.dropWhile isSpaceChar) then some ds
  else none

/-- Attempt to match the regex `(\d+(?:\.\d+)?)\s*ba` anchored at the start
of `l`; the engine first tries to take the optional fraction (greedy) and
falls back to the integer-only reading.  Returns group 1 on success. -/
def matchBaAt (l : List Char) : Option (List Char) :=
  let ds := l.takeWhile isDigitChar
  let rest := l.dropWhile isDigitChar
  if ds.isEmpty then none
  else
    let withFrac : Option (List Char) :=
      match rest with
      | c :: r2 =>
        if c = '.' then
          let fs := r2.takeWhile isDigitChar
          let r3 := r2.dropWhile isDigitChar
          if fs.isEmpty then none
          else if List.isPrefixOf [ 'b', 'a' ] (r3.dropWhile isSpaceChar) then
            some (ds ++ '.' :: fs)
          else none
        else none
      | [] => none
    match withFrac with
    | some g => some g
    | none =>
      if List.isPrefixOf [ 'b', 'a' ] (rest.dropWhile isSpaceChar) then some ds
      else none

/-- Attempt to match the regex `([\d,]+)\s*sqft` anchored at the start of
`l`.  Returns group 1 on success. -/
def matchSqftAt (l : List Char) : Option (List Char) :=
  let ds := l.takeWhile isDigitOrComma
  let rest := l.dropWhile isDigitOrComma
  if ds.isEmpty then none
  else if List.isPrefixOf [ 's', 'q', 'f', 't' ] (rest.dropWhile isSpaceChar) then some ds
  else none

/-- `re.search` semantics: try the anchored matcher at every position from
the left and return the first success. -/
def reSearch (m : List Char → Option (List Char)) : List Char → Option (List Char)
  | [] => m []
  | c :: rest =>
    match m (c :: rest) with
    | some g => some g
    | none => reSearch m rest

/-- `re.search(r"(\d+)\s*bd", t)` — group 1, line 175 of the source. -/
def searchBeds (t : List Char) : Option (List Char) := reSearch matchBdAt t

/-- `re.search(r"(\d+(?:\.\d+)?)\s*ba", t)` — group 1, line 180. -/
def searchBaths (t : List Char) : Option (List Char) := reSearch matchBaAt t

/-- `re.search(r"([\d,]+)\s*sqft", t)` — group 1, line 185 (before the
comma removal applied at line 187). -/
def searchSqft (t : List Char) : Option (List Char) := reSearch matchSqftAt t

/-- `sqft_match.group(1).replace(',', '')` — line 187. -/
def stripCommas (l : List Char) : List Char := l.filter (fun c => c ≠ ',')

/-- The literal `" bd, "` separating the bed figure from the bath figure
in a `"<n> bd, <m> ba, <k,kkk> sqft"` details blob. -/
def sepBd : List Char := [ ' ', 'b', 'd', ',', ' ' ]

/-- The literal `" ba, "` separating the bath figure from the
square-footage figure. -/
def sepBa : List Char := [ ' ', 'b', 'a', ',', ' ' ]

/-- The literal `" sqft"` closing the details blob. -/
def sqftTail : List Char := [ ' ', 's', 'q', 'f', 't' ]

/-- A synthetic details blob `"<n> bd, <m> ba, <k> sqft"` (right-nested
concatenation). -/
def detailsBlob (n m k : List Char) : List Char :=
  n ++ (sepBd ++ (m ++ (sepBa ++ (k ++ sqftTail))))

/-- ASCII-lowered copy of a text, modelling `re.IGNORECASE`. -/
def lowerText (l : List Char) : List Char := l.map Char.toLower

/-- Substring test: does `needle` occur contiguously inside `hay`? -/
def containsSub (needle hay : List Char) : Bool :=
  if List.isPrefixOf needle hay then true
  else match hay with
    | [] => false
    | _ :: rest => containsSub needle rest

/-- The literal of `re.compile("For Sale by Owner", re.IGNORECASE)`, lowered. -/
def fsboNeedle : List Char :=
  [ 'f', 'o', 'r', ' ', 's', 'a', 'l', 'e', ' ', 'b', 'y', ' ',
    'o', 'w', 'n', 'e', 'r' ]

/-- Whether one string node matches the case-insensitive
"For Sale by Owner" pattern (an unanchored `re.search`). -/
def fsboTextMatch (t : List Char) : Bool := containsSub fsboNeedle (lowerText t)

/-- One listing card (`<li>` of `ul.photo-cards` or a
`div[data-test='property-card']`) as seen through the accessors the code
applies to it.  Text fields carry the already-stripped `.text.strip()`
content of the corresponding sub-element, `none` when `select_one` finds
nothing.  `raises` abstracts a card whose markup makes one of the
BeautifulSoup accessors raise mid-processing (the exception case the
page-level `try` of `parse_listings_page` catches). -/
structure Card where
  /-- `card.select_one(".StyledZillowLogo-c11n-8-84-3__sc-1ly7na1-0")` found
  an element (line 155). -/
  fsboBadge : Bool
  /-- The string nodes of the card, searched by
  `card.find(string=re.compile("For Sale by Owner", re.IGNORECASE))`
  (line 156). -/
  texts : List (List Char)
  /-- `card.select_one("address").text.strip()` (lines 160–162). -/
  address : Option (List Char)
  /-- `card.select_one("[data-test='property-card-price']").text.strip()`
  (lines 165–167). -/
  price : Option (List Char)
  /-- `card.select_one("[data-test='property-card-details']").text.strip()`
  (lines 170–172). -/
  details : Option (List Char)
  /-- The `href` of `card.select_one("a[href^='/homedetails']")`
  (lines 190–192). -/
  href : Option (List Char)
  /-- Processing this card raises an exception. -/
  raises : Bool
  deriving DecidableEq

/-- `card.find(string=re.compile("For Sale by Owner", re.IGNORECASE))`
returns a node iff some string node of the card matches. -/
def cardFsboText (c : Card) : Bool := c.texts.any fsboTextMatch

/-- The record dict built for one card (lines 152–196): every key is
added only under the corresponding `if`, so each field is optional. -/
structure Listing where
  address : Option (List Char)
  price : Option (List Char)
  beds : Option (List Char)
  baths : Option (List Char)
  sqft : Option (List Char)
  url : Option (List Char)
  source : Option (List Char)
  deriving DecidableEq

/-- `https://www.zillow.com` as a character list. -/
def zillowOrigin : List Char :=
  [ 'h', 't', 't', 'p', 's', ':', '/', '/', 'w', 'w', 'w', '.',
    'z', 'i', 'l', 'l', 'o', 'w', '.', 'c', 'o', 'm' ]

/-- Lines 190–196: resolve the card link; a leading `/` gets the origin
prepended, otherwise the href is kept as is. -/
def resolveUrl (href : List Char) : List Char :=
  match href with
  | '/' :: rest => zillowOrigin ++ '/' :: rest
  | other => other

/-- The dict as populated by lines 159–196 (before the `source` key). -/
def buildListing (c : Card) : Listing :=
  { address := c.address
    price := c.price
    beds := c.details.bind (fun t => searchBeds t)
    baths := c.details.bind (fun t => searchBaths t)
    sqft := c.details.bind (fun t => (searchSqft t).map stripCommas)
    url := c.href.map resolveUrl
    source := none }

/-- The Python truthiness test `if listing:` at line 199: the dict is
falsy iff no key was ever added. -/
def listingIsEmpty (l : Listing) : Bool :=
  l.address.isNone && l.price.isNone && l.beds.isNone && l.baths.isNone &&
    l.sqft.isNone && l.url.isNone && l.source.isNone

/-- `'Zillow FSBO'`, the `source` tag added at line 200. -/
def zillowFsboTag : List Char :=
  [ 'Z', 'i', 'l', 'l', 'o', 'w', ' ', 'F', 'S', 'B', 'O' ]

/-- Lines 152–202 for a single card: classification
(`if fsbo_badge or for_sale_by_owner_text`), field extraction, the
`if listing:` truthiness guard, and the `source` tag.  `Except.error`
models an exception raised by an accessor on this card, which propagates
out of the `for` loop.  `Except.ok none` means the card contributes no
record. -/
def processCard (c : Card) : Except Unit (Option Listing) :=
  if c.raises then Except.error ()
  else if c.fsboBadge || cardFsboText c then
    let l := buildListing c
    if listingIsEmpty l then Except.ok none
    else Except.ok (some { l with source := some zillowFsboTag })
  else Except.ok none

/-- The `for card in listing_cards:` loop of lines 151–202, with the
exception semantics of the surrounding `try` (lines 142 and 204–205): a
raising card aborts the loop, and `self.listings` keeps exactly the
records appended before the failure. -/
def parseCards : List Card → List Listing → List Listing
  | [], acc => acc
  | c :: rest, acc =>
    match processCard c with
    | Except.error _ => acc
    | Except.ok none => parseCards rest acc
    | Except.ok (some l) => parseCards rest (acc ++ [l])

/-- One rendered results page, as seen through the two card selectors. -/
structure Page where
  /-- `soup.select("ul.photo-cards > li")` (line 147). -/
  photoCards : List Card
  /-- `soup.select("div[data-test='property-card']")` (line 149). -/
  propertyCards : List Card

/-- Lines 147–149: the primary selector, falling back to the alternate
selector only when the primary yields zero elements. -/
def selectCards (p : Page) : List Card :=
  if p.photoCards.isEmpty then p.propertyCards else p.photoCards

/-- `parse_listings_page` (lines 140–205) acting on `self.listings`. -/
def parse_listings_page (p : Page) (listings : List Listing) : List Listing :=
  parseCards (selectCards p) listings

/-- The mutable state of a `ZillowFSBOScraper` instance together with a
ghost counter.  `driver` is `none` iff `self.driver is None`; the payload
is an opaque handle.  `quitCalls` counts the `self.driver.quit()`
invocations (resource releases) performed so far — it is instrumentation
only and influences no branch. -/
structure ScraperState where
  driver : Option Nat
  listings : List Listing
  quitCalls : Nat
  deriving DecidableEq

/-- `__init__` (lines 26–27): `self.driver = None`, `self.listings = []`. -/
def initState : ScraperState :=
  { driver := none, listings := [], quitCalls := 0 }

/-- `start_browser` (lines 29–33): installs a fresh driver handle. -/
def start_browser (s : ScraperState) : ScraperState :=
  { s with driver := some (s.quitCalls + 1) }

/-- `close_browser` (lines 35–38): `if self.driver: self.driver.quit()`.
Note the code never resets `self.driver` to `None`. -/
def close_browser (s : ScraperState) : ScraperState :=
  match s.driver with
  | some _ => { s with quitCalls := s.quitCalls + 1 }
  | none => s

/-- `random.uniform(a, b)` = `a + (b - a) * random()` where `random()`
samples in `[0, 1)`; modelled over `ℚ` with the sample `r` explicit. -/
def uniformSample (a b r : ℚ) : ℚ := a + (b - a) * r

/-- `random_delay` (lines 40–42): the duration passed to `time.sleep`. -/
def random_delay (minSeconds maxSeconds r : ℚ) : ℚ :=
  uniformSample minSeconds maxSeconds r

/-- The environment of one run: what the browser serves.  `pageAt p` is
the markup rendered while the loop variable is `p` (1-indexed);
`hasNext p` tells whether `go_to_next_page` succeeds on that page
(a clickable `a[title='Next page']`, or an active pagination item with a
successor, found by the fallback of lines 127–136 — `false` covers both
`return False` paths and the swallowed exceptions of lines 125 and 138);
`crashAt p` tells whether an unrecoverable exception (navigation or
browser-resource failure) is raised while loading/processing page `p`,
which propagates to the `except` of line 84. -/
structure Env where
  pageAt : Nat → Page
  hasNext : Nat → Bool
  crashAt : Nat → Bool

/-- How the pagination loop of lines 62–80 ended. -/
inductive RunExit where
  /-- The `for` loop ran out of pages (the ceiling was reached). -/
  | normal : RunExit
  /-- `go_to_next_page` returned `False`: `break` at line 80. -/
  | noNext : RunExit
  /-- An exception propagated to the handler at line 84. -/
  | crashed : RunExit
  deriving DecidableEq

/-- The `for page in range(1, max_pages + 1):` loop (lines 62–80).  The
first argument is the remaining portion of `range(1, max_pages + 1)`;
`rest.isEmpty` is exactly the negation of the `page < max_pages` guard at
line 77.  Each visited page performs one load attempt (the
`WebDriverWait` of lines 66–71 followed by `parse_listings_page`); the
returned trace lists the pages on which a load attempt happened. -/
def pagesLoop (env : Env) : List Nat → List Listing → List Listing × List Nat × RunExit
  | [], acc => (acc, [], RunExit.normal)
  | page :: rest, acc =>
    if env.crashAt page then (acc, [page], RunExit.crashed)
    else
      let acc2 := parse_listings_page (env.pageAt page) acc
      if rest.isEmpty then (acc2, [page], RunExit.normal)
      else if env.hasNext page then
        let r := pagesLoop env rest acc2
        (r.1, page :: r.2.1, r.2.2)
      else (acc2, [page], RunExit.noNext)

/-- `search_fsbo_listings` (lines 44–89).  Line 47: a browser is started
only when `self.driver` is `None`.  Both the normal path (line 82) and
the `except` path (line 86) return `self.listings`; the `finally` block
(lines 87–89) always runs `close_browser`.  Returns the returned list,
the final instance state, the load-attempt trace and the exit kind. -/
def search_fsbo_listings (env : Env) (maxPages : Nat) (s : ScraperState) :
    List Listing × ScraperState × List Nat × RunExit :=
  let s1 := if s.driver.isNone then start_browser s else s
  let r := pagesLoop env (List.range' 1 maxPages) s1.listings
  let s2 := close_browser { s1 with listings := r.1 }
  (r.1, s2, r.2.1, r.2.2)

/-- The records accumulated by running `parse_listings_page` over the
pages of `ps` in order, starting from `acc` (used to state what a clean
prefix of the pagination loop produces). -/
def aggregatePages (env : Env) (ps : List Nat) (acc : List Listing) : List Listing :=
  ps.foldl (fun a q => parse_listings_page (env.pageAt q) a) acc

/-! ## Concrete sample data (used to instantiate theorems) -/

/-- A card carrying neither FSBO signal. -/
def cardPlain : Card :=
  { fsboBadge := false, texts := [[ 'a', 'g', 'e', 'n', 't' ]],
    address := none, price := none, details := none, href := none,
    raises := false }

/-- A card whose processing raises an exception. -/
def cardCrash : Card :=
  { fsboBadge := false, texts := [], address := none, price := none,
    details := none, href := none, raises := true }

/-- An FSBO-badged card with an address. -/
def cardFsbo : Card :=
  { fsboBadge := true, texts := [],
    address := some [ '1', '2', '3' ], price := none, details := none,
    href := none, raises := false }

/-- A page with no card under either selector. -/
def pageEmpty : Page := { photoCards := [], propertyCards := [] }

/-- A page whose first card raises and whose second card is FSBO. -/
def pageCrashThenFsbo : Page :=
  { photoCards := [ cardCrash, cardFsbo ], propertyCards := [] }

/-- The record `processCard` emits for `cardFsbo`. -/
def fsboListing : Listing :=
  { address := some [ '1', '2', '3' ], price := none, beds := none,
    baths := none, sqft := none, url := none,
    source := some zillowFsboTag }

/-- A page with one FSBO card under the primary selector. -/
def pageOne : Page := { photoCards := [ cardFsbo ], propertyCards := [] }

/-- An environment that always serves `pageOne`, always has a next-page
control and never crashes. -/
def envSimple : Env :=
  { pageAt := fun _ => pageOne, hasNext := fun _ => true,
    crashAt := fun _ => false }

/-- The empty record dict. -/
def emptyListing : Listing :=
  { address := none, price := none, beds := none, baths := none,
    sqft := none, url := none, source := none }

/-- An environment that raises an unrecoverable exception while
processing page 2 and is otherwise like `envSimple`. -/
def envCrash2 : Env :=
  { pageAt := fun _ => pageOne, hasNext := fun _ => true,
    crashAt := fun p => p == 2 }

/-- An environment in which no next-page control can ever be located. -/
def envNoNext : Env :=
  { pageAt := fun _ => pageOne, hasNext := fun _ => false,
    crashAt := fun _ => false }

/-! ## Generic helper lemmas -/

theorem takeWhile_append_all {α : Type} (p : α → Bool) (xs ys : List α)
    (h : ∀ x ∈ xs, p x = true) :
    (xs ++ ys).takeWhile p = xs ++ ys.takeWhile p := by
  induction xs with
  | nil => simp
  | cons a l ih =>
    simp only [List.cons_append, List.takeWhile_cons, h a (by simp)]
    simp only [if_true]
    rw [ih (fun x hx => h x (by simp [hx]))]

theorem dropWhile_append_all {α : Type} (p : α → Bool) (xs ys : List α)
    (h : ∀ x ∈ xs, p x = true) :
    (xs ++ ys).dropWhile p = ys.dropWhile p := by
  induction xs with
  | nil => simp
  | cons a l ih =>
    simp only [List.cons_append, List.dropWhile_cons, h a (by simp)]
    simp only [if_true]
    exact ih (fun x hx => h x (by simp [hx]))

theorem reSearch_cons_of_none (m : List Char → Option (List Char)) (c : Char)
    (l : List Char) (h : m (c :: l) = none) :
    reSearch m (c :: l) = reSearch m l := by
  simp [reSearch, h]

theorem reSearch_cons_of_some (m : List Char → Option (List Char)) (c : Char)
    (l g : List Char) (h : m (c :: l) = some g) :
    reSearch m (c :: l) = some g := by
  simp [reSearch, h]

/-! ## Lemmas about the accumulator threading -/

theorem parseCards_acc (cs : List Card) :
    ∀ acc, parseCards cs acc = acc ++ parseCards cs [] := by
  induction cs with
  | nil => intro acc; simp [parseCards]
  | cons c rest ih =>
    intro acc
    simp only [parseCards]
    cases hp : processCard c with
    | error e => simp
    | ok o =>
      cases o with
      | none => exact ih acc
      | some l =>
        dsimp only
        rw [ih (acc ++ [l]), List.nil_append, ih [l]]
        simp

theorem parse_listings_page_acc (p : Page) (acc : List Listing) :
    parse_listings_page p acc = acc ++ parse_listings_page p [] := by
  unfold parse_listings_page
  exact parseCards_acc (selectCards p) acc

theorem pagesLoop_acc (env : Env) (ps : List Nat) :
    ∀ acc, pagesLoop env ps acc =
      (acc ++ (pagesLoop env ps []).1, (pagesLoop env ps []).2) := by
  induction ps with
  | nil => intro acc; simp [pagesLoop]
  | cons page rest ih =>
    intro acc
    by_cases hc : env.crashAt page = true
    · simp [pagesLoop, hc]
    · simp only [Bool.not_eq_true] at hc
      by_cases hr : rest.isEmpty
      · simp only [pagesLoop, hc, hr, Bool.false_eq_true, if_false, if_true]
        rw [parse_listings_page_acc (env.pageAt page) acc]
      · by_cases hn : env.hasNext page = true
        · simp only [pagesLoop, hc, hr, hn, Bool.false_eq_true, if_false, if_true]
          rw [ih (parse_listings_page (env.pageAt page) acc),
            ih (parse_listings_page (env.pageAt page) [])]
          rw [parse_listings_page_acc (env.pageAt page) acc]
          simp
        · simp only [Bool.not_eq_true] at hn
          simp only [pagesLoop, hc, hr, hn, Bool.false_eq_true, if_false, if_true]
          rw [parse_listings_page_acc (env.pageAt page) acc]

theorem pagesLoop_trace_mem (env : Env) (ps : List Nat) :
    ∀ acc p, p ∈ (pagesLoop env ps acc).2.1 → p ∈ ps := by
  induction ps with
  | nil => intro acc p hp; simp [pagesLoop] at hp
  | cons page rest ih =>
    intro acc p hp
    by_cases hc : env.crashAt page = true
    · simp [pagesLoop, hc] at hp
      simp [hp]
    · simp only [Bool.not_eq_true] at hc
      by_cases hr : rest.isEmpty
      · simp [pagesLoop, hc, hr] at hp
        simp [hp]
      · by_cases hn : env.hasNext page = true
        · simp only [pagesLoop, hc, hr, hn, Bool.false_eq_true, if_false,
            if_true] at hp
          simp only [List.mem_cons] at hp
          rcases hp with hp | hp
          · simp [hp]
          · exact List.mem_cons_of_mem page (ih _ p hp)
        · simp only [Bool.not_eq_true] at hn
          simp [pagesLoop, hc, hr, hn] at hp
          simp [hp]

theorem pagesLoop_normal_trace (env : Env) (ps : List Nat) :
    ∀ acc, (pagesLoop env ps acc).2.2 = RunExit.normal →
      (pagesLoop env ps acc).2.1 = ps := by
  induction ps with
  | nil => intro acc _; simp [pagesLoop]
  | cons page rest ih =>
    intro acc hx
    by_cases hc : env.crashAt page = true
    · simp [pagesLoop, hc] at hx
    · simp only [Bool.not_eq_true] at hc
      by_cases hr : rest.isEmpty
      · simp only [List.isEmpty_iff] at hr
        simp [pagesLoop, hc, hr]
      · by_cases hn : env.hasNext page = true
        · simp only [pagesLoop, hc, hr, hn, Bool.false_eq_true, if_false,
            if_true] at hx ⊢
          rw [ih _ hx]
        · simp only [Bool.not_eq_true] at hn
          simp [pagesLoop, hc, hr, hn] at hx

theorem pagesLoop_clean_prefix (env : Env) (ps : List Nat) :
    ∀ qs acc, qs ≠ [] →
      (∀ x ∈ ps, env.crashAt x = false ∧ env.hasNext x = true) →
      pagesLoop env (ps ++ qs) acc =
        ((pagesLoop env qs (aggregatePages env ps acc)).1,
          ps ++ (pagesLoop env qs (aggregatePages env ps acc)).2.1,
          (pagesLoop env qs (aggregatePages env ps acc)).2.2) := by
  induction ps with
  | nil => intro qs acc _ _; simp [aggregatePages]
  | cons x ps ih =>
    intro qs acc hqs hclean
    have hx := hclean x (by simp)
    have hne : ((ps ++ qs).isEmpty) = false := by
      cases qs with
      | nil => exact absurd rfl hqs
      | cons b bs => cases ps <;> rfl
    simp only [List.cons_append, pagesLoop, List.append_eq, hx.1,
      Bool.false_eq_true, if_false, hne, hx.2, if_true]
    rw [ih qs (parse_listings_page (env.pageAt x) acc) hqs
      (fun y hy => hclean y (by simp [hy]))]
    simp [aggregatePages]

theorem aggregatePages_acc (env : Env) (ps : List Nat) :
    ∀ acc, aggregatePages env ps acc = acc ++ aggregatePages env ps [] := by
  induction ps with
  | nil => intro acc; simp [aggregatePages]
  | cons x ps ih =>
    intro acc
    simp only [aggregatePages, List.foldl_cons]
    show aggregatePages env ps (parse_listings_page (env.pageAt x) acc) =
      acc ++ aggregatePages env ps (parse_listings_page (env.pageAt x) [])
    rw [ih (parse_listings_page (env.pageAt x) acc),
      ih (parse_listings_page (env.pageAt x) []),
      parse_listings_page_acc (env.pageAt x) acc]
    simp

/-! ## Lemmas about the run boundary of `search_fsbo_listings` -/

theorem start_browser_listings (s : ScraperState) :
    (if s.driver.isNone then start_browser s else s).listings = s.listings := by
  by_cases h : s.driver.isNone <;> simp [h, start_browser]

theorem close_browser_listings (s : ScraperState) :
    (close_browser s).listings = s.listings := by
  unfold close_browser
  cases s.driver <;> rfl

theorem search_fst (env : Env) (maxPages : Nat) (s : ScraperState) :
    (search_fsbo_listings env maxPages s).1 =
      s.listings ++ (pagesLoop env (List.range' 1 maxPages) []).1 := by
  unfold search_fsbo_listings
  dsimp only
  rw [pagesLoop_acc, start_browser_listings]

theorem search_exit_trace (env : Env) (maxPages : Nat) (s : ScraperState) :
    (search_fsbo_listings env maxPages s).2.2 =
      (pagesLoop env (List.range' 1 maxPages) []).2 := by
  unfold search_fsbo_listings
  dsimp only
  rw [pagesLoop_acc]

theorem search_state_listings (env : Env) (maxPages : Nat) (s : ScraperState) :
    ((search_fsbo_listings env maxPages s).2.1).listings =
      (search_fsbo_listings env maxPages s).1 := by
  unfold search_fsbo_listings
  dsimp only
  rw [close_browser_listings]

theorem search_quit_once (env : Env) (maxPages : Nat) (s : ScraperState) :
    ((search_fsbo_listings env maxPages s).2.1).quitCalls = s.quitCalls + 1 := by
  unfold search_fsbo_listings
  dsimp only
  cases hd : s.driver with
  | none => simp [hd, start_browser, close_browser]
  | some d => simp [hd, close_browser]

/-! ## The claims -/

/-- **C1 (counterexample).**  The claim says a failure while processing one
card does not abort processing of the remaining cards on that page.  On
the page `[cardCrash, cardFsbo]` the second card is FSBO-classified and
would be emitted on its own, yet the page yields no record at all: the
`try` of `parse_listings_page` wraps the whole card loop, so the first
card's exception aborts the rest of the page. -/
theorem claim1_counterexample :
    processCard cardFsbo = Except.ok (some fsboListing) ∧
    parse_listings_page pageCrashThenFsbo [] = [] := by
  constructor
  · rfl
  · rfl

/-- **C1 (amended).**  A failure while processing one card aborts the
processing of every later card on that page (the exception propagates out
of the card loop to the page-level handler); the records emitted before
the failing card are retained and the page call still returns normally. -/
theorem claim1_amended (xs : List Card) (c : Card) (ys : List Card)
    (acc : List Listing) (h : c.raises = true) :
    parseCards (xs ++ c :: ys) acc = parseCards xs acc := by
  induction xs generalizing acc with
  | nil => simp [parseCards, processCard, h]
  | cons x xs ih =>
    simp only [List.cons_append, parseCards]
    cases processCard x with
    | error e => rfl
    | ok o =>
      cases o with
      | none => exact ih acc
      | some l => exact ih (acc ++ [l])

/-- Witness for the amended C1 at a concrete page. -/
theorem claim1_witness :
    parseCards ([ cardFsbo ] ++ cardCrash :: [ cardFsbo ]) [] =
      parseCards [ cardFsbo ] [] :=
  claim1_amended [ cardFsbo ] cardCrash [ cardFsbo ] [] rfl

/-- **C3.**  A card with neither an FSBO badge nor a case-insensitive
"For Sale by Owner" text match never produces a record: `processCard`
never returns one, and running the card loop over such a card leaves the
accumulator exactly as the remaining cards would. -/
theorem claim3_classification_precision (c : Card)
    (hb : c.fsboBadge = false) (ht : cardFsboText c = false) :
    (∀ l, processCard c ≠ Except.ok (some l)) ∧
    ∀ rest acc, parseCards (c :: rest) acc = acc ∨
      parseCards (c :: rest) acc = parseCards rest acc := by
  constructor
  · intro l h
    by_cases hr : c.raises = true
    · simp [processCard, hr] at h
    · simp only [Bool.not_eq_true] at hr
      simp [processCard, hr, hb, ht] at h
  · intro rest acc
    by_cases hr : c.raises = true
    · left; simp [parseCards, processCard, hr]
    · right
      simp only [Bool.not_eq_true] at hr
      simp [parseCards, processCard, hr, hb, ht]

/-- Witness for C3 on a concrete signal-free card. -/
theorem claim3_witness :
    processCard cardPlain ≠ Except.ok (some emptyListing) ∧
    parseCards [ cardPlain ] [] = [] := by
  constructor
  · exact (claim3_classification_precision cardPlain rfl (by decide)).1
      emptyListing
  · rcases (claim3_classification_precision cardPlain rfl (by decide)).2 [] []
      with h | h
    · exact h
    · exact h.trans rfl

/-- **C7 (counterexample).**  The claim says `close()` is a no-op when the
session is already closed.  `close_browser` never resets `self.driver`,
so on a state that has already been closed once a second call invokes
`driver.quit()` again: repeating the call is observably not a no-op. -/
theorem claim7_counterexample :
    close_browser (close_browser
      { driver := some 1, listings := [], quitCalls := 0 }) ≠
    close_browser { driver := some 1, listings := [], quitCalls := 0 } := by
  decide

/-- **C7 (amended).**  `close_browser` is a no-op when the browser was
never started (`self.driver is None`); and each call of
`search_fsbo_listings` invokes the resource release exactly once — via
its `finally` block — whatever way the run ends.  (What fails in the
original claim is only the no-op-ness of a repeated `close()` after a
close that follows a start, since `self.driver` is never reset.) -/
theorem claim7_amended (s : ScraperState) :
    (s.driver = none → close_browser s = s) ∧
    ∀ env maxPages,
      ((search_fsbo_listings env maxPages s).2.1).quitCalls =
        s.quitCalls + 1 := by
  constructor
  · intro h; simp [close_browser, h]
  · intro env maxPages; exact search_quit_once env maxPages s

/-- Witness for the amended C7. -/
theorem claim7_witness :
    close_browser initState = initState ∧
    ((search_fsbo_listings envSimple 1 initState).2.1).quitCalls =
      initState.quitCalls + 1 :=
  ⟨(claim7_amended initState).1 rfl,
   (claim7_amended initState).2 envSimple 1⟩

/-- **C8.**  The extractor uses the primary card selector whenever it
yields at least one element, switches to the alternate selector exactly
when the primary yields zero elements, and when both yield zero elements
the page contributes zero records (the accumulator is unchanged, no
error). -/
theorem claim8_selector_fallback (p : Page) :
    (p.photoCards ≠ [] → selectCards p = p.photoCards) ∧
    (p.photoCards = [] → selectCards p = p.propertyCards) ∧
    (p.photoCards = [] → p.propertyCards = [] →
      ∀ acc, parse_listings_page p acc = acc) := by
  refine ⟨?_, ?_, ?_⟩
  · intro h
    simp [selectCards, List.isEmpty_iff, h]
  · intro h
    simp [selectCards, h]
  · intro h1 h2 acc
    simp [parse_listings_page, selectCards, h1, h2, parseCards]

/-- Witness for C8 on a page that is empty under both selectors. -/
theorem claim8_witness :
    selectCards pageEmpty = pageEmpty.propertyCards ∧
    parse_listings_page pageEmpty [] = [] :=
  ⟨(claim8_selector_fallback pageEmpty).2.1 rfl,
   (claim8_selector_fallback pageEmpty).2.2 rfl rfl []⟩

/-- **C9.**  For `min_seconds ≤ max_seconds` and any possible value of the
underlying `random()` sample in `[0, 1]`, the duration slept by
`random_delay` lies in the closed interval
`[min_seconds, max_seconds]`. -/
theorem claim9_delay_in_bounds (a b r : ℚ) (hab : a ≤ b) (h0 : 0 ≤ r)
    (h1 : r ≤ 1) :
    a ≤ random_delay a b r ∧ random_delay a b r ≤ b := by
  unfold random_delay uniformSample
  constructor
  · nlinarith
  · nlinarith

/-- Witness for C9 at concrete bounds and sample. -/
theorem claim9_witness :
    (2 : ℚ) ≤ random_delay 2 5 (1 / 2) ∧ random_delay 2 5 (1 / 2) ≤ 5 :=
  claim9_delay_in_bounds 2 5 (1 / 2) (by norm_num) (by norm_num) (by norm_num)

/-- **C10.**  `self.listings` is never cleared between runs: every call of
`search_fsbo_listings` returns the previously accumulated records
followed by the records the current run emits, the final instance state
carries that whole list, and a further call on the resulting state again
returns everything already accumulated plus its own run's records. -/
theorem claim10_listings_never_cleared (env : Env) (maxPages : Nat)
    (s : ScraperState) :
    (search_fsbo_listings env maxPages s).1 =
      s.listings ++ (pagesLoop env (List.range' 1 maxPages) []).1 ∧
    ((search_fsbo_listings env maxPages s).2.1).listings =
      (search_fsbo_listings env maxPages s).1 ∧
    ∀ env2 m2,
      (search_fsbo_listings env2 m2 (search_fsbo_listings env maxPages s).2.1).1 =
        (search_fsbo_listings env maxPages s).1 ++
          (pagesLoop env2 (List.range' 1 m2) []).1 := by
  refine ⟨search_fst env maxPages s, search_state_listings env maxPages s, ?_⟩
  intro env2 m2
  rw [search_fst env2 m2 _, search_state_listings env maxPages s]

/-- **C2.**  With ceiling `max_pages = N ≥ 1`, every page on which a load
attempt (wait for the listing container followed by extraction) happens
satisfies `1 ≤ page ≤ N`, and when the run ends without early
termination (`RunExit.normal`) the load attempts are exactly pages
`1, …, N` — `N` of them. -/
theorem claim2_pagination_ceiling (env : Env) (s : ScraperState) (N : Nat)
    (hN : 1 ≤ N) :
    (∀ p ∈ (search_fsbo_listings env N s).2.2.1, 1 ≤ p ∧ p ≤ N) ∧
    ((search_fsbo_listings env N s).2.2.2 = RunExit.normal →
      (search_fsbo_listings env N s).2.2.1 = List.range' 1 N ∧
      ((search_fsbo_listings env N s).2.2.1).length = N) := by
  have ht := search_exit_trace env N s
  constructor
  · intro p hp
    rw [ht] at hp
    have hm := pagesLoop_trace_mem env (List.range' 1 N) [] p hp
    rw [List.mem_range'] at hm
    obtain ⟨i, hi, rfl⟩ := hm
    omega
  · intro hx
    rw [ht] at hx ⊢
    rw [pagesLoop_normal_trace env (List.range' 1 N) [] hx]
    exact ⟨rfl, by simp⟩

/-- Witness for C2: a 2-page run in a benign environment. -/
theorem claim2_witness :
    ((1 ≤ 1 ∧ 1 ≤ 2) ∧
      (search_fsbo_listings envSimple 2 initState).2.2.1 = List.range' 1 2) ∧
    ((search_fsbo_listings envSimple 2 initState).2.2.1).length = 2 := by
  refine ⟨⟨?_, ?_⟩, ?_⟩
  · exact (claim2_pagination_ceiling envSimple initState 2 (by norm_num)).1 1
      (by decide)
  · exact ((claim2_pagination_ceiling envSimple initState 2 (by norm_num)).2
      (by decide)).1
  · exact ((claim2_pagination_ceiling envSimple initState 2 (by norm_num)).2
      (by decide)).2

/-- **C5.**  If an unrecoverable exception is raised while processing page
`p` of a run whose earlier pages were processed cleanly, the run still
returns every record aggregated on pages `1, …, p-1` (on top of the
records already held before the run), the exit is the `except` path, and
the browser resource is released (exactly one `quit`) before the run
boundary. -/
theorem claim5_crash_keeps_records (env : Env) (s : ScraperState)
    (maxPages p : Nat) (h1 : 1 ≤ p) (h2 : p ≤ maxPages)
    (hc : env.crashAt p = true)
    (hprev : ∀ q, 1 ≤ q → q < p →
      env.crashAt q = false ∧ env.hasNext q = true) :
    (search_fsbo_listings env maxPages s).1 =
      aggregatePages env (List.range' 1 (p - 1)) s.listings ∧
    (search_fsbo_listings env maxPages s).2.2.2 = RunExit.crashed ∧
    ((search_fsbo_listings env maxPages s).2.1).quitCalls =
      s.quitCalls + 1 := by
  have e1 : 1 + 1 * (p - 1) = p := by omega
  have e2 : maxPages - (p - 1) + (p - 1) = maxPages := by omega
  have hsplit := List.range'_append 1 (p - 1) (maxPages - (p - 1)) 1
  rw [e1, e2] at hsplit
  have hcons : List.range' p (maxPages - (p - 1)) =
      p :: List.range' (p + 1) (maxPages - p) := by
    have hn : maxPages - (p - 1) = (maxPages - p) + 1 := by omega
    rw [hn, List.range'_succ]
  have hclean : ∀ x ∈ List.range' 1 (p - 1),
      env.crashAt x = false ∧ env.hasNext x = true := by
    intro x hx
    rw [List.mem_range'] at hx
    obtain ⟨i, hi, rfl⟩ := hx
    exact hprev _ (by omega) (by omega)
  have hloop : pagesLoop env (List.range' 1 maxPages) [] =
      (aggregatePages env (List.range' 1 (p - 1)) [],
        List.range' 1 (p - 1) ++ [p], RunExit.crashed) := by
    rw [← hsplit,
      pagesLoop_clean_prefix env _ _ _ (by rw [hcons]; simp) hclean, hcons]
    simp [pagesLoop, hc]
  refine ⟨?_, ?_, search_quit_once env maxPages s⟩
  · rw [search_fst, hloop]
    dsimp only
    rw [aggregatePages_acc env _ s.listings]
  · rw [search_exit_trace, hloop]

/-- Witness for C5: crash on page 2 of a 3-page run. -/
theorem claim5_witness :
    (search_fsbo_listings envCrash2 3 initState).1 =
      aggregatePages envCrash2 (List.range' 1 (2 - 1)) initState.listings ∧
    (search_fsbo_listings envCrash2 3 initState).2.2.2 = RunExit.crashed ∧
    ((search_fsbo_listings envCrash2 3 initState).2.1).quitCalls =
      initState.quitCalls + 1 :=
  claim5_crash_keeps_records envCrash2 initState 3 2 (by norm_num)
    (by norm_num) rfl
    (by
      intro q hq1 hq2
      interval_cases q
      exact ⟨rfl, rfl⟩)

/-- **C6.**  If on page `P < max_pages` neither next-page strategy finds a
control (`go_to_next_page` returns `False`), while pages up to `P` were
processed cleanly, the run terminates via the `break` — not via an error
— and returns exactly the records collected on pages `1, …, P` (on top of
the records held before the run). -/
theorem claim6_no_next_terminates (env : Env) (s : ScraperState)
    (maxPages P : Nat) (h1 : 1 ≤ P) (h2 : P < maxPages)
    (hcP : env.crashAt P = false) (hnP : env.hasNext P = false)
    (hprev : ∀ q, 1 ≤ q → q < P →
      env.crashAt q = false ∧ env.hasNext q = true) :
    (search_fsbo_listings env maxPages s).2.2.2 = RunExit.noNext ∧
    (search_fsbo_listings env maxPages s).1 =
      aggregatePages env (List.range' 1 P) s.listings := by
  have e1 : 1 + 1 * (P - 1) = P := by omega
  have e2 : maxPages - (P - 1) + (P - 1) = maxPages := by omega
  have hsplit := List.range'_append 1 (P - 1) (maxPages - (P - 1)) 1
  rw [e1, e2] at hsplit
  have hcons : List.range' P (maxPages - (P - 1)) =
      P :: (P + 1) :: List.range' (P + 2) (maxPages - P - 1) := by
    have hn : maxPages - (P - 1) = ((maxPages - P - 1) + 1) + 1 := by omega
    rw [hn, List.range'_succ, List.range'_succ]
  have hclean : ∀ x ∈ List.range' 1 (P - 1),
      env.crashAt x = false ∧ env.hasNext x = true := by
    intro x hx
    rw [List.mem_range'] at hx
    obtain ⟨i, hi, rfl⟩ := hx
    exact hprev _ (by omega) (by omega)
  have hstep : List.range' 1 (P - 1) ++ [P] = List.range' 1 P := by
    have := List.range'_append 1 (P - 1) 1 1
    rw [e1, List.range'_one] at this
    rw [this]
    congr 1
    omega
  have hloop : pagesLoop env (List.range' 1 maxPages) [] =
      (aggregatePages env (List.range' 1 P) [],
        List.range' 1 (P - 1) ++ [P], RunExit.noNext) := by
    rw [← hsplit,
      pagesLoop_clean_prefix env _ _ _ (by rw [hcons]; simp) hclean, hcons]
    simp only [pagesLoop, hcP, Bool.false_eq_true, if_false, List.isEmpty_cons,
      hnP, if_true]
    rw [← hstep]
    simp [aggregatePages, List.foldl_append]
  constructor
  · rw [search_exit_trace, hloop]
  · rw [search_fst, hloop]
    dsimp only
    rw [aggregatePages_acc env _ s.listings]

/-! ## Lemmas for the three regular-expression searches (C4) -/

theorem isPrefixOf_cons_cons (a b : Char) (as bs : List Char) :
    List.isPrefixOf (a :: as) (b :: bs) = (a == b && List.isPrefixOf as bs) :=
  rfl

theorem isPrefixOf_cons_ne (p c : Char) (ps l : List Char) (h : p ≠ c) :
    List.isPrefixOf (p :: ps) (c :: l) = false := by
  rw [isPrefixOf_cons_cons, beq_eq_false_iff_ne.mpr h, Bool.false_and]

theorem ne_digit_of_not_digit (c x : Char) (h : isDigitChar c = true)
    (hx : isDigitChar x = false) : x ≠ c := by
  intro he
  rw [he, h] at hx
  cases hx

theorem digit_not_space (c : Char) (h : isDigitChar c = true) :
    isSpaceChar c = false := by
  by_contra hs
  simp only [Bool.not_eq_false] at hs
  simp only [isSpaceChar, Bool.or_eq_true, decide_eq_true_eq] at hs
  rcases hs with ((h1 | h1) | h1) | h1 <;> rw [h1] at h <;>
    exact absurd h (by decide)

theorem digitOrComma_of_digit (c : Char) (h : isDigitChar c = true) :
    isDigitOrComma c = true := by
  simp only [isDigitChar] at h
  simp [isDigitOrComma, h]

theorem isEmpty_false_of_ne_nil {l : List Char} (h : l ≠ []) :
    l.isEmpty = false := by
  cases l with
  | nil => exact absurd rfl h
  | cons a t => rfl

theorem run_split (p : Char → Bool) (d : List Char) (x : Char) (t : List Char)
    (hd : ∀ c ∈ d, p c = true) (hx : p x = false) :
    (d ++ x :: t).takeWhile p = d ∧ (d ++ x :: t).dropWhile p = x :: t := by
  constructor
  · rw [takeWhile_append_all p d (x :: t) hd]
    simp [List.takeWhile_cons, hx]
  · rw [dropWhile_append_all p d (x :: t) hd]
    simp [List.dropWhile_cons, hx]

theorem matchBdAt_at_n (d t : List Char) (hne : d ≠ [])
    (hd : ∀ c ∈ d, isDigitChar c = true) :
    matchBdAt (d ++ (' ' :: 'b' :: 'd' :: ',' :: ' ' :: t)) = some d := by
  have h := run_split isDigitChar d ' ' ('b' :: 'd' :: ',' :: ' ' :: t) hd
    (by decide)
  simp only [matchBdAt, h.1, h.2, isEmpty_false_of_ne_nil hne,
    Bool.false_eq_true, if_false]
  rfl

theorem matchBaAt_none_digitrun (d : List Char) (x : Char) (t : List Char)
    (hne : d ≠ []) (hd : ∀ c ∈ d, isDigitChar c = true)
    (hx : isDigitChar x = false) (hdot : x ≠ '.')
    (hpre : List.isPrefixOf [ 'b', 'a' ]
      ((x :: t).dropWhile isSpaceChar) = false) :
    matchBaAt (d ++ x :: t) = none := by
  have h := run_split isDigitChar d x t hd hx
  simp only [matchBaAt, h.1, h.2, isEmpty_false_of_ne_nil hne,
    Bool.false_eq_true, if_false, hdot, ite_false, hpre]

theorem reSearch_ba_skip_run (d : List Char) (x : Char) (t : List Char)
    (hd : ∀ c ∈ d, isDigitChar c = true) (hx : isDigitChar x = false)
    (hdot : x ≠ '.')
    (hpre : List.isPrefixOf [ 'b', 'a' ]
      ((x :: t).dropWhile isSpaceChar) = false) :
    reSearch matchBaAt (d ++ x :: t) = reSearch matchBaAt (x :: t) := by
  induction d with
  | nil => rfl
  | cons c d ih =>
    rw [List.cons_append, reSearch_cons_of_none matchBaAt c (d ++ x :: t)
      (by
        rw [← List.cons_append]
        exact matchBaAt_none_digitrun (c :: d) x t (by simp) hd hx hdot hpre)]
    exact ih (fun e he => hd e (by simp [he]))

theorem matchBaAt_at_int (m t : List Char) (hne : m ≠ [])
    (hm : ∀ c ∈ m, isDigitChar c = true) :
    matchBaAt (m ++ (' ' :: 'b' :: 'a' :: ',' :: ' ' :: t)) = some m := by
  have h := run_split isDigitChar m ' ' ('b' :: 'a' :: ',' :: ' ' :: t) hm
    (by decide)
  simp only [matchBaAt, h.1, h.2, isEmpty_false_of_ne_nil hne,
    Bool.false_eq_true, if_false]
  rfl

theorem matchBaAt_at_frac (a b t : List Char) (ha : a ≠ []) (hb : b ≠ [])
    (had : ∀ c ∈ a, isDigitChar c = true)
    (hbd : ∀ c ∈ b, isDigitChar c = true) :
    matchBaAt ((a ++ '.' :: b) ++ (' ' :: 'b' :: 'a' :: ',' :: ' ' :: t)) =
      some (a ++ '.' :: b) := by
  have hshape : (a ++ '.' :: b) ++ (' ' :: 'b' :: 'a' :: ',' :: ' ' :: t) =
      a ++ '.' :: (b ++ (' ' :: 'b' :: 'a' :: ',' :: ' ' :: t)) := by
    simp [List.append_assoc]
  rw [hshape]
  have h1 := run_split isDigitChar a '.'
    (b ++ (' ' :: 'b' :: 'a' :: ',' :: ' ' :: t)) had (by decide)
  have h2 := run_split isDigitChar b ' ' ('b' :: 'a' :: ',' :: ' ' :: t) hbd
    (by decide)
  simp only [matchBaAt, h1.1, h1.2, isEmpty_false_of_ne_nil ha,
    Bool.false_eq_true, if_false, if_true, h2.1, h2.2,
    isEmpty_false_of_ne_nil hb]
  rfl

theorem matchSqftAt_none_classrun (d : List Char) (x : Char) (t : List Char)
    (hne : d ≠ []) (hd : ∀ c ∈ d, isDigitOrComma c = true)
    (hx : isDigitOrComma x = false)
    (hpre : List.isPrefixOf [ 's', 'q', 'f', 't' ]
      ((x :: t).dropWhile isSpaceChar) = false) :
    matchSqftAt (d ++ x :: t) = none := by
  have h := run_split isDigitOrComma d x t hd hx
  simp only [matchSqftAt, h.1, h.2, isEmpty_false_of_ne_nil hne,
    Bool.false_eq_true, if_false, hpre]

theorem reSearch_sqft_skip_run (d : List Char) (x : Char) (t : List Char)
    (hd : ∀ c ∈ d, isDigitOrComma c = true) (hx : isDigitOrComma x = false)
    (hpre : List.isPrefixOf [ 's', 'q', 'f', 't' ]
      ((x :: t).dropWhile isSpaceChar) = false) :
    reSearch matchSqftAt (d ++ x :: t) = reSearch matchSqftAt (x :: t) := by
  induction d with
  | nil => rfl
  | cons c d ih =>
    rw [List.cons_append, reSearch_cons_of_none matchSqftAt c (d ++ x :: t)
      (by
        rw [← List.cons_append]
        exact matchSqftAt_none_classrun (c :: d) x t (by simp) hd hx hpre)]
    exact ih (fun e he => hd e (by simp [he]))

theorem isPrefixOf_nil_left (l : List Char) : List.isPrefixOf [] l = true := by
  cases l <;> rfl

theorem isPrefixOf_cons_self (a : Char) (ps l : List Char) :
    List.isPrefixOf (a :: ps) (a :: l) = List.isPrefixOf ps l := by
  rw [isPrefixOf_cons_cons, beq_self_eq_true, Bool.true_and]

theorem matchSqftAt_comma_space (c : Char) (l : List Char)
    (hc : isDigitChar c = true) :
    matchSqftAt (',' :: ' ' :: c :: l) = none := by
  have hmem : ∀ e ∈ [ ',' ], isDigitOrComma e = true := by
    intro e he
    rw [List.mem_singleton] at he
    subst he
    decide
  have h := run_split isDigitOrComma [ ',' ] ' ' (c :: l) hmem (by decide)
  have hdrop : (' ' :: c :: l).dropWhile isSpaceChar = c :: l := by
    rw [List.dropWhile_cons, if_pos (by decide), List.dropWhile_cons,
      if_neg ?hh]
    case hh =>
      rw [digit_not_space c hc]
      exact Bool.false_ne_true
  have hpre : List.isPrefixOf [ 's', 'q', 'f', 't' ] (c :: l) = false :=
    isPrefixOf_cons_ne 's' c _ l (ne_digit_of_not_digit c 's' hc (by decide))
  have hsplit : (',' :: ' ' :: c :: l) = [ ',' ] ++ ' ' :: (c :: l) := rfl
  rw [hsplit]
  simp only [matchSqftAt, h.1, h.2, hdrop, hpre]
  rfl

theorem matchSqftAt_at_k (k t : List Char) (hne : k ≠ [])
    (hk : ∀ c ∈ k, isDigitOrComma c = true) :
    matchSqftAt (k ++ (' ' :: 's' :: 'q' :: 'f' :: 't' :: t)) = some k := by
  have h := run_split isDigitOrComma k ' ' ('s' :: 'q' :: 'f' :: 't' :: t) hk
    (by decide)
  have hdd : List.dropWhile isSpaceChar (' ' :: 's' :: 'q' :: 'f' :: 't' :: t) =
      's' :: 'q' :: 'f' :: 't' :: t := by
    rw [List.dropWhile_cons, if_pos (by decide), List.dropWhile_cons,
      if_neg (by decide)]
  have hp : List.isPrefixOf [ 's', 'q', 'f', 't' ]
      ('s' :: 'q' :: 'f' :: 't' :: t) = true := by
    simp [isPrefixOf_cons_self, isPrefixOf_nil_left]
  simp only [matchSqftAt, h.1, h.2, isEmpty_false_of_ne_nil hne,
    Bool.false_eq_true, if_false, hdd, hp, if_true]

theorem dropWhile_space_cons_space (l : List Char) :
    List.dropWhile isSpaceChar (' ' :: l) = List.dropWhile isSpaceChar l := by
  rw [List.dropWhile_cons, if_pos (by decide)]

theorem dropWhile_space_cons_of_not (c : Char) (l : List Char)
    (h : isSpaceChar c = false) :
    List.dropWhile isSpaceChar (c :: l) = c :: l := by
  rw [List.dropWhile_cons, if_neg (by simp [h])]

theorem matchBaAt_head_nondigit (c : Char) (l : List Char)
    (hc : isDigitChar c = false) : matchBaAt (c :: l) = none := by
  simp [matchBaAt, List.takeWhile_cons, hc]

theorem matchSqftAt_head_nonclass (c : Char) (l : List Char)
    (hc : isDigitOrComma c = false) : matchSqftAt (c :: l) = none := by
  simp [matchSqftAt, List.takeWhile_cons, hc]

theorem searchBeds_blob (n m k : List Char) (hn : n ≠ [])
    (hnd : ∀ c ∈ n, isDigitChar c = true) :
    searchBeds (detailsBlob n m k) = some n := by
  obtain ⟨c, n', rfl⟩ : ∃ c n', n = c :: n' := by
    cases n with
    | nil => exact absurd rfl hn
    | cons c n' => exact ⟨c, n', rfl⟩
  unfold searchBeds detailsBlob
  rw [List.cons_append]
  apply reSearch_cons_of_some
  rw [← List.cons_append]
  exact matchBdAt_at_n (c :: n') (m ++ (sepBa ++ (k ++ sqftTail)))
    (by simp) hnd

theorem searchBaths_blob (n m k : List Char) (hn : n ≠ [])
    (hnd : ∀ c ∈ n, isDigitChar c = true)
    (hm : (m ≠ [] ∧ ∀ c ∈ m, isDigitChar c = true) ∨
      ∃ a b, m = a ++ '.' :: b ∧ a ≠ [] ∧ b ≠ [] ∧
        (∀ c ∈ a, isDigitChar c = true) ∧ (∀ c ∈ b, isDigitChar c = true)) :
    searchBaths (detailsBlob n m k) = some m := by
  unfold searchBaths detailsBlob
  show reSearch matchBaAt
    (n ++ ' ' :: 'b' :: 'd' :: ',' :: ' ' :: (m ++ (sepBa ++ (k ++ sqftTail))))
    = some m
  rw [reSearch_ba_skip_run n ' '
    ('b' :: 'd' :: ',' :: ' ' :: (m ++ (sepBa ++ (k ++ sqftTail))))
    hnd (by decide) (by decide)
    (by
      rw [dropWhile_space_cons_space, dropWhile_space_cons_of_not 'b' _
        (by decide), isPrefixOf_cons_self]
      exact isPrefixOf_cons_ne 'a' 'd' _ _ (by decide))]
  rw [reSearch_cons_of_none _ _ _ (matchBaAt_head_nondigit ' ' _ (by decide)),
    reSearch_cons_of_none _ _ _ (matchBaAt_head_nondigit 'b' _ (by decide)),
    reSearch_cons_of_none _ _ _ (matchBaAt_head_nondigit 'd' _ (by decide)),
    reSearch_cons_of_none _ _ _ (matchBaAt_head_nondigit ',' _ (by decide)),
    reSearch_cons_of_none _ _ _ (matchBaAt_head_nondigit ' ' _ (by decide))]
  rcases hm with ⟨hme, hmd⟩ | ⟨a, b, rfl, ha, hb, had, hbd⟩
  · obtain ⟨c, m', rfl⟩ : ∃ c m', m = c :: m' := by
      cases m with
      | nil => exact absurd rfl hme
      | cons c m' => exact ⟨c, m', rfl⟩
    rw [List.cons_append]
    apply reSearch_cons_of_some
    rw [← List.cons_append]
    exact matchBaAt_at_int (c :: m') (k ++ sqftTail) (by simp) hmd
  · obtain ⟨c, a', rfl⟩ : ∃ c a', a = c :: a' := by
      cases a with
      | nil => exact absurd rfl ha
      | cons c a' => exact ⟨c, a', rfl⟩
    rw [List.cons_append, List.cons_append]
    apply reSearch_cons_of_some
    rw [← List.cons_append, ← List.cons_append]
    exact matchBaAt_at_frac (c :: a') b (k ++ sqftTail) (by simp) hb had hbd

theorem reSearch_sqft_sepBa_tail (k : List Char)
    (hkh : ∃ d ks, k = d :: ks ∧ isDigitChar d = true)
    (hkc : ∀ c ∈ k, isDigitOrComma c = true) :
    reSearch matchSqftAt
      (' ' :: 'b' :: 'a' :: ',' :: ' ' ::
        (k ++ (' ' :: 's' :: 'q' :: 'f' :: 't' :: []))) = some k := by
  obtain ⟨d, ks, rfl, hdd⟩ := hkh
  rw [reSearch_cons_of_none _ _ _ (matchSqftAt_head_nonclass ' ' _ (by decide)),
    reSearch_cons_of_none _ _ _ (matchSqftAt_head_nonclass 'b' _ (by decide)),
    reSearch_cons_of_none _ _ _ (matchSqftAt_head_nonclass 'a' _ (by decide)),
    List.cons_append,
    reSearch_cons_of_none _ _ _ (matchSqftAt_comma_space d _ hdd),
    reSearch_cons_of_none _ _ _ (matchSqftAt_head_nonclass ' ' _ (by decide))]
  apply reSearch_cons_of_some
  rw [← List.cons_append]
  exact matchSqftAt_at_k (d :: ks) [] (by simp) hkc

theorem reSearch_sqft_from_m (m k : List Char)
    (hm : (m ≠ [] ∧ ∀ c ∈ m, isDigitChar c = true) ∨
      ∃ a b, m = a ++ '.' :: b ∧ a ≠ [] ∧ b ≠ [] ∧
        (∀ c ∈ a, isDigitChar c = true) ∧ (∀ c ∈ b, isDigitChar c = true))
    (hkh : ∃ d ks, k = d :: ks ∧ isDigitChar d = true)
    (hkc : ∀ c ∈ k, isDigitOrComma c = true) :
    reSearch matchSqftAt
      (m ++ (' ' :: 'b' :: 'a' :: ',' :: ' ' ::
        (k ++ (' ' :: 's' :: 'q' :: 'f' :: 't' :: [])))) = some k := by
  rcases hm with ⟨hme, hmd⟩ | ⟨a, b, rfl, ha, hb, had, hbd⟩
  · rw [reSearch_sqft_skip_run m ' '
      ('b' :: 'a' :: ',' :: ' ' :: (k ++ (' ' :: 's' :: 'q' :: 'f' :: 't' :: [])))
      (fun c hc => digitOrComma_of_digit c (hmd c hc)) (by decide)
      (by
        rw [dropWhile_space_cons_space, dropWhile_space_cons_of_not 'b' _
          (by decide)]
        exact isPrefixOf_cons_ne 's' 'b' _ _ (by decide))]
    exact reSearch_sqft_sepBa_tail k hkh hkc
  · rw [List.append_assoc, List.cons_append]
    rw [reSearch_sqft_skip_run a '.'
      (b ++ (' ' :: 'b' :: 'a' :: ',' :: ' ' ::
        (k ++ (' ' :: 's' :: 'q' :: 'f' :: 't' :: []))))
      (fun c hc => digitOrComma_of_digit c (had c hc)) (by decide)
      (by
        rw [dropWhile_space_cons_of_not '.' _ (by decide)]
        exact isPrefixOf_cons_ne 's' '.' _ _ (by decide))]
    rw [reSearch_cons_of_none _ _ _
      (matchSqftAt_head_nonclass '.' _ (by decide))]
    rw [reSearch_sqft_skip_run b ' '
      ('b' :: 'a' :: ',' :: ' ' :: (k ++ (' ' :: 's' :: 'q' :: 'f' :: 't' :: [])))
      (fun c hc => digitOrComma_of_digit c (hbd c hc)) (by decide)
      (by
        rw [dropWhile_space_cons_space, dropWhile_space_cons_of_not 'b' _
          (by decide)]
        exact isPrefixOf_cons_ne 's' 'b' _ _ (by decide))]
    exact reSearch_sqft_sepBa_tail k hkh hkc

theorem searchSqft_blob (n m k : List Char)
    (hnd : ∀ c ∈ n, isDigitChar c = true)
    (hm : (m ≠ [] ∧ ∀ c ∈ m, isDigitChar c = true) ∨
      ∃ a b, m = a ++ '.' :: b ∧ a ≠ [] ∧ b ≠ [] ∧
        (∀ c ∈ a, isDigitChar c = true) ∧ (∀ c ∈ b, isDigitChar c = true))
    (hkh : ∃ d ks, k = d :: ks ∧ isDigitChar d = true)
    (hkc : ∀ c ∈ k, isDigitOrComma c = true) :
    searchSqft (detailsBlob n m k) = some k := by
  have hmhead : ∃ c0 m0, m = c0 :: m0 ∧ isDigitChar c0 = true := by
    rcases hm with ⟨hme, hmd⟩ | ⟨a, b, rfl, ha, hb, had, hbd⟩
    · cases m with
      | nil => exact absurd rfl hme
      | cons c m' => exact ⟨c, m', rfl, hmd c (by simp)⟩
    · cases a with
      | nil => exact absurd rfl ha
      | cons c a' =>
        exact ⟨c, a' ++ '.' :: b, List.cons_append c a' ('.' :: b),
          had c (by simp)⟩
  unfold searchSqft detailsBlob
  show reSearch matchSqftAt
    (n ++ ' ' :: 'b' :: 'd' :: ',' :: ' ' ::
      (m ++ (' ' :: 'b' :: 'a' :: ',' :: ' ' ::
        (k ++ (' ' :: 's' :: 'q' :: 'f' :: 't' :: []))))) = some k
  rw [reSearch_sqft_skip_run n ' '
    ('b' :: 'd' :: ',' :: ' ' ::
      (m ++ (' ' :: 'b' :: 'a' :: ',' :: ' ' ::
        (k ++ (' ' :: 's' :: 'q' :: 'f' :: 't' :: [])))))
    (fun c hc => digitOrComma_of_digit c (hnd c hc)) (by decide)
    (by
      rw [dropWhile_space_cons_space, dropWhile_space_cons_of_not 'b' _
        (by decide)]
      exact isPrefixOf_cons_ne 's' 'b' _ _ (by decide))]
  rw [reSearch_cons_of_none _ _ _ (matchSqftAt_head_nonclass ' ' _ (by decide)),
    reSearch_cons_of_none _ _ _ (matchSqftAt_head_nonclass 'b' _ (by decide)),
    reSearch_cons_of_none _ _ _ (matchSqftAt_head_nonclass 'd' _ (by decide))]
  obtain ⟨c0, m0, hm0, hc0⟩ := hmhead
  rw [hm0, List.cons_append,
    reSearch_cons_of_none _ _ _ (matchSqftAt_comma_space c0 _ hc0),
    reSearch_cons_of_none _ _ _ (matchSqftAt_head_nonclass ' ' _ (by decide)),
    ← List.cons_append, ← hm0]
  exact reSearch_sqft_from_m m k hm hkh hkc

theorem stripCommas_eq_digits (k : List Char)
    (hkc : ∀ c ∈ k, isDigitOrComma c = true) :
    stripCommas k = k.filter (fun c => c.isDigit) := by
  induction k with
  | nil => rfl
  | cons c ks ih =>
    have hc := hkc c (List.mem_cons_self c ks)
    have ih2 := ih (fun e he => hkc e (List.mem_cons_of_mem c he))
    by_cases hcc : c = ','
    · subst hcc
      simpa [stripCommas, List.filter_cons] using ih2
    · have hdig : c.isDigit = true := by
        simp only [isDigitOrComma, Bool.or_eq_true, decide_eq_true_eq] at hc
        rcases hc with h | h
        · exact h
        · exact absurd h hcc
      simpa [stripCommas, List.filter_cons, hdig, hcc] using ih2

/-- Witness for C6: the next-page control is absent on page 1 of a 3-page
run. -/
theorem claim6_witness :
    (search_fsbo_listings envNoNext 3 initState).2.2.2 = RunExit.noNext ∧
    (search_fsbo_listings envNoNext 3 initState).1 =
      aggregatePages envNoNext (List.range' 1 1) initState.listings :=
  claim6_no_next_terminates envNoNext initState 3 1 (by norm_num)
    (by norm_num) rfl rfl
    (fun q hq1 hq2 => absurd hq2 (Nat.not_lt.mpr hq1))

/-- **C4.**  For every details blob `"<n> bd, <m> ba, <k> sqft"` — `n` a
nonempty digit string, `m` a digit string or a fraction
`digits.digits`, `k` a digit-and-comma figure starting with a digit —
the three independent regex searches return exactly `n` for beds,
exactly `m` for baths and exactly `k` for the square-footage group, and
the comma removal applied to the latter yields precisely the digits of
`k` with all separators deleted. -/
theorem claim4_details_extraction (n m k : List Char)
    (hn : n ≠ []) (hnd : ∀ c ∈ n, isDigitChar c = true)
    (hm : (m ≠ [] ∧ ∀ c ∈ m, isDigitChar c = true) ∨
      ∃ a b, m = a ++ '.' :: b ∧ a ≠ [] ∧ b ≠ [] ∧
        (∀ c ∈ a, isDigitChar c = true) ∧ (∀ c ∈ b, isDigitChar c = true))
    (hkh : ∃ d ks, k = d :: ks ∧ isDigitChar d = true)
    (hkc : ∀ c ∈ k, isDigitOrComma c = true) :
    searchBeds (detailsBlob n m k) = some n ∧
    searchBaths (detailsBlob n m k) = some m ∧
    searchSqft (detailsBlob n m k) = some k ∧
    (searchSqft (detailsBlob n m k)).map stripCommas =
      some (k.filter (fun c => c.isDigit)) := by
  refine ⟨searchBeds_blob n m k hn hnd, searchBaths_blob n m k hn hnd hm,
    searchSqft_blob n m k hnd hm hkh hkc, ?_⟩
  rw [searchSqft_blob n m k hnd hm hkh hkc]
  simp [stripCommas_eq_digits k hkc]

/-- Witness for C4 on the blob `"3 bd, 2.5 ba, 1,500 sqft"`. -/
theorem claim4_witness :
    searchBeds (detailsBlob [ '3' ] [ '2', '.', '5' ]
      [ '1', ',', '5', '0', '0' ]) = some [ '3' ] ∧
    searchBaths (detailsBlob [ '3' ] [ '2', '.', '5' ]
      [ '1', ',', '5', '0', '0' ]) = some [ '2', '.', '5' ] ∧
    searchSqft (detailsBlob [ '3' ] [ '2', '.', '5' ]
      [ '1', ',', '5', '0', '0' ]) = some [ '1', ',', '5', '0', '0' ] ∧
    (searchSqft (detailsBlob [ '3' ] [ '2', '.', '5' ]
      [ '1', ',', '5', '0', '0' ])).map stripCommas =
      some [ '1', '5', '0', '0' ] := by
  have h := claim4_details_extraction [ '3' ] [ '2', '.', '5' ]
    [ '1', ',', '5', '0', '0' ] (by decide) (by decide)
    (Or.inr ⟨[ '2' ], [ '5' ], rfl, by decide, by decide, by decide,
      by decide⟩)
    ⟨'1', [ ',', '5', '0', '0' ], rfl, by decide⟩ (by decide)
  refine ⟨h.1, h.2.1, h.2.2.1, ?_⟩
  rw [h.2.2.2]
  rfl

end ZillowScrape
